import Mathlib

/-!
Verification of the `cloud_colocations` repository core against its
specification.

The development shallowly embeds the Python sources:

* `cloud_colocations/colocations/products.py` — the `DataProduct` temporal
  resolution methods (`get_files_in_range`, `get_file_by_date`,
  `get_preceeding_file`, `get_following_file`, `download_file`) and the
  `FileCache` class (`get`, `set_path`, `__init__`);
* `cloud_colocations/formats.py` (and the identical
  `cloud_collocations/formats.py`) — the `ModisMyd03` nearest-neighbour
  colocation search (`_get_colocation` / `get_colocation`).

Conventions of the embedding:

* A Python `datetime` is an absolute UTC timestamp in whole seconds,
  modelled as `Int`.  The pair (year, day-of-year) that the source derives
  via `t.year` / `t.strftime("%j")` is in bijection with the absolute
  calendar-day number `dayOf t = t.fdiv 86400`, so per-day listings are
  keyed by that integer.  `t + timedelta(days = 1)` is `t + 86400`.
* Filenames are an arbitrary type `F` with decidable equality: the source
  treats them opaquely (list membership, `list.index`, and the adapter's
  `name_to_date` are the only operations).
* Python runtime failures are explicit: `pyGet` implements Python list
  indexing (negative indices count from the end, out of range raises
  `IndexError`), `pyIndex` implements `list.index` (raises `ValueError`),
  `np.argmin` of an empty array raises `ValueError`, and reading a local
  variable that was never assigned raises `UnboundLocalError`.
* Latitudes, longitudes and distances live in a linear ordered ring: the
  source only subtracts, squares, adds and compares them.  The geodesic
  distance of the external `geopy` library is a parameter `dist` of the
  colocation search; `sqDist` is the concrete stand-in metric used for
  closed evaluations (it agrees with any metric on coincident points,
  which is all the concrete evaluations rely on).
-/

set_option maxRecDepth 100000

namespace CloudColocations

/-- Python runtime errors that the embedded code can raise.  `rangeError`
is the `RangeError` class documented in the specification's error
taxonomy; no code path of the source produces it, it exists here only so
that statements about the taxonomy can be written down. -/
inductive PyErr where
  | indexError
  | valueError
  | unboundLocal
  | fileNotFound
  | rangeError
  deriving DecidableEq

/-- Python list indexing `l[i]`: a negative index counts from the end,
anything out of range raises `IndexError`. -/
def pyGet {α : Type} (l : List α) (i : Int) : Except PyErr α :=
  let j : Int := if i < 0 then i + l.length else i
  if h : 0 ≤ j ∧ j < l.length then
    .ok (l.get ⟨j.toNat, by omega⟩)
  else
    .error .indexError

/-- Python `l.index(x)`: position of the first occurrence, `ValueError`
if absent. -/
def pyIndex {α : Type} [DecidableEq α] (l : List α) (x : α) : Except PyErr Nat :=
  if x ∈ l then .ok (l.indexOf x) else .error .valueError

/-- Absolute calendar-day number of a timestamp; the (year, day-of-year)
pair the source computes with `t.year` and `t.strftime("%j")` is in
bijection with this value. -/
def dayOf (t : Int) : Int := t.fdiv 86400

theorem dayOf_bounds (t : Int) : 86400 * dayOf t ≤ t ∧ t < 86400 * (dayOf t + 1) := by
  have h1 := Int.fdiv_add_fmod t 86400
  have h2 := Int.fmod_nonneg' t (show (0 : Int) < 86400 by norm_num)
  have h3 := Int.fmod_lt_of_pos t (show (0 : Int) < 86400 by norm_num)
  unfold dayOf
  omega

theorem dayOf_eq_iff {t d : Int} : dayOf t = d ↔ 86400 * d ≤ t ∧ t < 86400 * (d + 1) := by
  have hb := dayOf_bounds t
  constructor
  · intro h
    omega
  · intro h
    omega

theorem dayOf_add_mul (t k : Int) : dayOf (t + 86400 * k) = dayOf t + k := by
  rw [dayOf_eq_iff]
  have hb := dayOf_bounds t
  omega

theorem dayOf_mul_self (d : Int) : dayOf (86400 * d) = d := by
  rw [dayOf_eq_iff]
  omega

theorem dayOf_add_day (t : Int) : dayOf (t + 86400) = dayOf t + 1 := by
  have := dayOf_add_mul t 1
  simpa using this

theorem dayOf_sub_day (t : Int) : dayOf (t - 86400) = dayOf t - 1 := by
  have h := dayOf_add_mul t (-1)
  have h2 : t + 86400 * (-1) = t - 86400 := by ring
  rw [h2] at h
  omega

/-! ### FileCache (`products.py`, `ensure_extension`, `FileCache`, `DataProduct.download_file`) -/

/-- Source `ensure_extension(path, ext)`: if no `e` in `ext` matches the
tail `path[-len(e):]`, append `ext[0]`.  (The source indexes `ext[0]`
unconditionally; every call site passes a non-empty list, the `headD ""`
default is never exercised.) -/
def ensure_extension (path : String) (ext : List String) : String :=
  if ext.any (fun e => path.takeRight e.length == e) then path
  else path ++ ext.headD ""

/-- Model of `os.path.join(p, f)` for the cache directory. -/
def path_join (p f : String) : String := p ++ "/" ++ f

/-- Source `FileCache.get(filename)`: `os.path.isfile(join(path, filename))`
modelled by membership of the full path in `store`, the set of files
present on disk under the cache root. -/
def FileCache_get (store : List String) (path f : String) : Option String :=
  if path_join path f ∈ store then some (path_join path f) else none

/-- Source `DataProduct.download_file(filename)`: on a cache hit return the
cached path and fetch nothing; on a miss normalise the extension, download
to `join(cache.path, filename)` and return that destination.  The final
`Nat` counts invocations of the adapter's `download` (the fetch). -/
def download_file (store : List String) (path f : String) : String × List String × Nat :=
  match FileCache_get store path f with
  | some hit => (hit, store, 0)
  | none =>
    let f1 := ensure_extension f [".hdf", "HDF5"]
    let dest := path_join path f1
    (dest, store ++ [dest], 1)

/-- Source `FileCache` object state: the `path` and `temp` attributes. -/
structure FileCacheState where
  path : String
  temp : Bool
  deriving DecidableEq

/-- Model of `shutil.rmtree(p)`: removes the directory `p` from the
filesystem (a list of existing directories); raises if `p` does not
exist. -/
def rmtree (fs : List String) (p : String) : Except PyErr (List String) :=
  if p ∈ fs then .ok (fs.erase p) else .error .fileNotFound

/-- Source `FileCache.__init__(path = None)`: `tempfile.mkdtemp()` creates
a fresh directory `tmp` and the cache is marked temporary. -/
def FileCacheState.mk_temp (tmp : String) (fs : List String) : FileCacheState × List String :=
  (⟨tmp, true⟩, fs ++ [tmp])

/-- Source `FileCache.set_path(path)`: assigns `self.path = path` FIRST,
then, if the cache was temporary, calls `shutil.rmtree(self.path)` — which
now names the freshly assigned path — and finally clears `temp`. -/
def FileCacheState.set_path (c : FileCacheState) (fs : List String) (p : String) :
    Except PyErr (FileCacheState × List String) :=
  let c1 : FileCacheState := ⟨p, c.temp⟩
  if c1.temp then
    (rmtree fs c1.path).map (fun fs1 => (⟨c1.path, false⟩, fs1))
  else
    .ok (⟨c1.path, false⟩, fs)

/-- C10: calling `set_path p` on a cache created without a path reassigns
`path` to `p`, then removes the directory tree at `p` (the new path),
leaves the original temporary directory on disk, and marks the cache
non-temporary. -/
theorem c10_set_path_removes_new_path (fs : List String) (tmp p : String)
    (hp : p ∈ fs) (hne : p ≠ tmp) (hnd : fs.Nodup) :
    ((FileCacheState.mk_temp tmp fs).1).set_path (FileCacheState.mk_temp tmp fs).2 p =
      .ok (⟨p, false⟩, (fs.erase p) ++ [tmp]) ∧
    tmp ∈ (fs.erase p) ++ [tmp] ∧
    p ∉ (fs.erase p) ++ [tmp] ∧
    tmp ∈ (FileCacheState.mk_temp tmp fs).2 := by
  have hp1 : p ∈ fs ++ [tmp] := List.mem_append_left _ hp
  refine ⟨?_, ?_, ?_, ?_⟩
  · simp only [FileCacheState.mk_temp, FileCacheState.set_path, rmtree, if_pos hp1]
    rw [List.erase_append_left _ hp]
    rfl
  · exact List.mem_append_right _ (List.mem_singleton.2 rfl)
  · intro hmem
    rcases List.mem_append.1 hmem with h | h
    · exact (List.Nodup.mem_erase_iff hnd).1 h |>.1 rfl
    · exact hne (List.mem_singleton.1 h)
  · exact List.mem_append_right _ (List.mem_singleton.2 rfl)

/-- C10 witness: concrete run on a filesystem holding directories
`"persistent"` and the fresh temporary directory `"tmpdir"`. -/
theorem c10_set_path_removes_new_path_witness :
    ((FileCacheState.mk_temp "tmpdir" ["persistent"]).1).set_path
        (FileCacheState.mk_temp "tmpdir" ["persistent"]).2 "persistent" =
      .ok (⟨"persistent", false⟩, (["persistent"].erase "persistent") ++ ["tmpdir"]) ∧
    "tmpdir" ∈ (["persistent"].erase "persistent") ++ ["tmpdir"] ∧
    "persistent" ∉ (["persistent"].erase "persistent") ++ ["tmpdir"] ∧
    "tmpdir" ∈ (FileCacheState.mk_temp "tmpdir" ["persistent"]).2 :=
  c10_set_path_removes_new_path ["persistent"] "tmpdir" "persistent"
    (by decide) (by decide) (by decide)

/-- C6 counterexample: for a filename whose extension is not a known
suffix, the lookup key (`"foo"`) differs from the stored key
(`"foo.hdf"`), so calling `download_file` twice fetches twice, refuting
"the underlying fetch procedure is invoked only once ... for every
filename, including filenames whose extension is not already one of the
archive's known suffixes". -/
theorem c6_counterexample :
    (download_file [] "cache" "foo").2.2 +
      (download_file (download_file [] "cache" "foo").2.1 "cache" "foo").2.2 = 2 ∧
    ¬ ((download_file [] "cache" "foo").2.2 +
      (download_file (download_file [] "cache" "foo").2.1 "cache" "foo").2.2 = 1) := by
  decide

/-- C6 amended: for filenames already carrying one of the archive's known
suffixes (`.hdf`, `HDF5`) the claim holds: the second call hits the cache,
fetches nothing and returns the cached path, and starting from a store
without the file exactly one fetch happens in total. -/
theorem c6_download_file_cached (store : List String) (p f : String)
    (hsuf : ([".hdf", "HDF5"].any (fun e => f.takeRight e.length == e)) = true) :
    (download_file (download_file store p f).2.1 p f).2.2 = 0 ∧
    (download_file (download_file store p f).2.1 p f).1 = path_join p f ∧
    (download_file store p f).2.2 +
      (download_file (download_file store p f).2.1 p f).2.2 ≤ 1 ∧
    (path_join p f ∉ store →
      (download_file store p f).2.2 +
        (download_file (download_file store p f).2.1 p f).2.2 = 1) := by
  have hext : ensure_extension f [".hdf", "HDF5"] = f := by
    unfold ensure_extension
    rw [if_pos hsuf]
  by_cases hmem : path_join p f ∈ store
  · simp [download_file, FileCache_get, hmem]
  · have hmem2 : path_join p f ∈ store ++ [path_join p f] :=
      List.mem_append_right _ (List.mem_singleton.2 rfl)
    simp [download_file, FileCache_get, hmem, hext, hmem2]

/-- C6 witness: concrete double download of `"granule.hdf"` from an empty
cache: the second call is a hit, and exactly one fetch occurs. -/
theorem c6_download_file_cached_witness :
    (download_file (download_file [] "cache" "granule.hdf").2.1 "cache" "granule.hdf").2.2 = 0 ∧
    (download_file (download_file [] "cache" "granule.hdf").2.1 "cache" "granule.hdf").1 =
      path_join "cache" "granule.hdf" ∧
    (download_file [] "cache" "granule.hdf").2.2 +
      (download_file (download_file [] "cache" "granule.hdf").2.1 "cache" "granule.hdf").2.2 ≤ 1 ∧
    (path_join "cache" "granule.hdf" ∉ ([] : List String) →
      (download_file [] "cache" "granule.hdf").2.2 +
        (download_file (download_file [] "cache" "granule.hdf").2.1 "cache" "granule.hdf").2.2 = 1) :=
  c6_download_file_cached [] "cache" "granule.hdf" (by decide)

/-! ### CollocationIndex (`formats.py`, `ModisMyd03._get_colocation` / `get_colocation`)

The latitude/longitude values of the source are IEEE floats; the embedding
is polymorphic over a linear ordered ring `α` (the source only subtracts,
multiplies, adds and compares them), and closed evaluations instantiate
`α := Int` on grids with integer coordinates. -/

/-- Geolocation grid of a loaded MYD03 file: `self.lats` / `self.lons`,
dense `m × n` arrays. -/
structure Grid (α : Type) where
  m : Nat
  n : Nat
  lats : Nat → Nat → α
  lons : Nat → Nat → α

/-- The locality-cache attributes `self.i_cached` / `self.j_cached`
(Python `None` or an `int`). -/
structure ColState where
  i_cached : Option Nat
  j_cached : Option Nat
  deriving DecidableEq

/-- Source `self.cache_range = 10`. -/
def cache_range : Nat := 10

/-- Python truthiness of `self.i_cached`: `None` and `0` are falsy. -/
def truthy : Option Nat → Bool
  | none => false
  | some k => !(k == 0)

/-- The cheap proxy `(lats - lat)**2 + (lons - lon)**2` at flat index
`ind` of the ravelled `m × n` array (row-major, `i = ind // n`,
`j = ind % n`). -/
def sqproxy {α : Type} [LinearOrderedRing α] (lats lons : Nat → Nat → α)
    (lat lon : α) (n ind : Nat) : α :=
  (lats (ind / n) (ind % n) - lat) * (lats (ind / n) (ind % n) - lat) +
    (lons (ind / n) (ind % n) - lon) * (lons (ind / n) (ind % n) - lon)

/-- Source `np.argmin(d.ravel())`: first flat index attaining the minimum
of the proxy over the `m * n` entries. -/
def argmin2d {α : Type} [LinearOrderedRing α] (lats lons : Nat → Nat → α)
    (lat lon : α) (m n : Nat) : Nat :=
  (List.range (m * n)).foldl
    (fun best ind =>
      if sqproxy lats lons lat lon n ind < sqproxy lats lons lat lon n best then ind
      else best)
    0

/-- Source `ModisMyd03._get_colocation(lat, lon, lats, lons)`: arg-minimum
of the squared lat/lon proxy over the given arrays, then the true distance
(external `geopy`, here the parameter `dist`) of that single candidate.
The returned indices are indices into the ARRAYS PASSED IN. -/
def get_colocation_core {α : Type} [LinearOrderedRing α]
    (dist : α → α → α → α → α) (lat lon : α)
    (lats lons : Nat → Nat → α) (m n : Nat) : Nat × Nat × α :=
  let ind := argmin2d lats lons lat lon m n
  let i := ind / n
  let j := ind % n
  (i, j, dist lat lon (lats i j) (lons i j))

/-- The full-grid branch of `get_colocation`: search the whole grid and,
on a match within `d_max`, store the matched indices in the cache. -/
def fullSearch {α : Type} [LinearOrderedRing α] (dist : α → α → α → α → α)
    (g : Grid α) (st : ColState) (lat lon d_max : α) : (Nat × Nat × α) × ColState :=
  let r := get_colocation_core dist lat lon g.lats g.lons g.m g.n
  if r.2.2 < d_max then (r, ⟨some r.1, some r.2.1⟩) else (r, st)

/-- The windowed branch of `get_colocation`: `_get_colocation` applied to
the slices `lats[i_start : i_end, j_start : j_end]` (numpy slicing clips
to the array bounds).  As in the source, the resulting indices are
relative to the slice. -/
def windowSearch {α : Type} [LinearOrderedRing α] (dist : α → α → α → α → α)
    (g : Grid α) (ic jc : Nat) (lat lon : α) : Nat × Nat × α :=
  let iStart : Nat := (max ((ic : Int) - (cache_range : Int)) 0).toNat
  let iEnd : Nat := ic + cache_range
  let jStart : Nat := (max ((jc : Int) - (cache_range : Int)) 0).toNat
  let jEnd : Nat := jc + cache_range
  get_colocation_core dist lat lon
    (fun a b => g.lats (iStart + a) (jStart + b))
    (fun a b => g.lons (iStart + a) (jStart + b))
    (min iEnd g.m - iStart) (min jEnd g.n - jStart)

/-- Source `ModisMyd03.get_colocation(lat, lon, d_max, use_cache)`: if the
cache is truthy and `use_cache`, try the window around the cached pixel
and return its result unchanged (cache untouched) when it beats `d_max`;
otherwise run the full-grid search, updating the cache on success. -/
def get_colocation {α : Type} [LinearOrderedRing α] (dist : α → α → α → α → α)
    (g : Grid α) (st : ColState) (lat lon d_max : α) (use_cache : Bool) :
    (Nat × Nat × α) × ColState :=
  if use_cache && truthy st.i_cached && truthy st.j_cached then
    let w := windowSearch dist g (st.i_cached.getD 0) (st.j_cached.getD 0) lat lon
    if w.2.2 < d_max then (w, st) else fullSearch dist g st lat lon d_max
  else fullSearch dist g st lat lon d_max

/-- Concrete stand-in for the geodesic distance, used only in closed
evaluations where every compared pixel coincides exactly with the query
point (any metric returns 0 there). -/
def sqDist (lat lon lat1 lon1 : Int) : Int :=
  (lat - lat1) * (lat - lat1) + (lon - lon1) * (lon - lon1)

/-- A 12 × 2 grid whose pixel `(i, j)` sits at latitude `i`, longitude
`j`. -/
def grid12 : Grid Int := ⟨12, 2, fun i _ => (i : Int), fun _ j => (j : Int)⟩

/-- C1: evaluation of the code at the failing input.  After a successful
full-grid match at pixel `(11, 1)` (which populates the cache), repeating
the SAME query with `use_cache = True` returns `(10, 1)` — the windowed
branch reports indices relative to the slice
`lats[1 : 21, 0 : 11]` without adding back `(i_start, j_start)` — while
the full-grid search (`use_cache = False`) returns `(11, 1)`.  Enabling
the cache therefore changes the returned index pair. -/
theorem c1_cache_changes_result :
    get_colocation sqDist grid12 ⟨none, none⟩ 11 1 1 true =
      ((11, 1, 0), ⟨some 11, some 1⟩) ∧
    (get_colocation sqDist grid12 ⟨some 11, some 1⟩ 11 1 1 true).1 = (10, 1, 0) ∧
    (get_colocation sqDist grid12 ⟨some 11, some 1⟩ 11 1 1 false).1 = (11, 1, 0) ∧
    ((10, 1) : Nat × Nat) ≠ ((11, 1) : Nat × Nat) := by
  refine ⟨by decide, by decide, by decide, by decide⟩

/-- C3 counterexample: with the cache at `(11, 1)`, a query matching grid
pixel `(10, 1)` exactly succeeds through the windowed branch (distance 0,
below `d_max = 1`), yet the cache is left at `(11, 1)`: a successful
windowed match does NOT update the cache to the new match location. -/
theorem c3_counterexample :
    get_colocation sqDist grid12 ⟨some 11, some 1⟩ 10 1 1 true =
      ((9, 1, 0), ⟨some 11, some 1⟩) ∧
    (0 : Int) < 1 ∧
    (⟨some 11, some 1⟩ : ColState) ≠ ⟨some 9, some 1⟩ ∧
    (⟨some 11, some 1⟩ : ColState) ≠ ⟨some 10, some 1⟩ := by
  refine ⟨by decide, by decide, by decide, by decide⟩

/-- C3 amended: the cache is written only by the full-grid branch — a
successful windowed match returns with the cache unchanged, a successful
full-grid match stores the matched indices, and a full-grid result at or
above `d_max` leaves the cache unchanged. -/
theorem c3_cache_update_policy {α : Type} [LinearOrderedRing α]
    (dist : α → α → α → α → α) (g : Grid α)
    (st : ColState) (lat lon d_max : α) (ic jc : Nat)
    (hic : ic ≠ 0) (hjc : jc ≠ 0)
    (hw : (windowSearch dist g ic jc lat lon).2.2 < d_max) :
    (get_colocation dist g ⟨some ic, some jc⟩ lat lon d_max true).2 =
      ⟨some ic, some jc⟩ ∧
    ((get_colocation_core dist lat lon g.lats g.lons g.m g.n).2.2 < d_max →
      (get_colocation dist g st lat lon d_max false).2 =
        ⟨some (get_colocation_core dist lat lon g.lats g.lons g.m g.n).1,
         some (get_colocation_core dist lat lon g.lats g.lons g.m g.n).2.1⟩) ∧
    (¬ (get_colocation_core dist lat lon g.lats g.lons g.m g.n).2.2 < d_max →
      (get_colocation dist g st lat lon d_max false).2 = st) := by
  refine ⟨?_, ?_, ?_⟩
  · have h1 : truthy (some ic) = true := by simp [truthy, hic]
    have h2 : truthy (some jc) = true := by simp [truthy, hjc]
    simp only [get_colocation, h1, h2, Bool.and_self, Bool.and_true, if_pos, Option.getD_some]
    rw [if_pos hw]
  · intro h
    simp only [get_colocation, Bool.false_and, if_neg (by simp : ¬ (false = true)), fullSearch]
    rw [if_pos h]
  · intro h
    simp only [get_colocation, Bool.false_and, if_neg (by simp : ¬ (false = true)), fullSearch]
    rw [if_neg h]

/-- C3 amended witness: on `grid12`, with the cache at `(11, 1)` and a
query at pixel `(10, 1)`, all three clauses instantiated. -/
theorem c3_cache_update_policy_witness :
    (get_colocation sqDist grid12 ⟨some 11, some 1⟩ 10 1 1 true).2 =
      ⟨some 11, some 1⟩ ∧
    ((get_colocation_core sqDist 10 1 grid12.lats grid12.lons grid12.m grid12.n).2.2 < 1 →
      (get_colocation sqDist grid12 ⟨none, none⟩ 10 1 1 false).2 =
        ⟨some (get_colocation_core sqDist 10 1 grid12.lats grid12.lons grid12.m grid12.n).1,
         some (get_colocation_core sqDist 10 1 grid12.lats grid12.lons grid12.m grid12.n).2.1⟩) ∧
    (¬ (get_colocation_core sqDist 10 1 grid12.lats grid12.lons grid12.m grid12.n).2.2 < 1 →
      (get_colocation sqDist grid12 ⟨none, none⟩ 10 1 1 false).2 = ⟨none, none⟩) :=
  c3_cache_update_policy sqDist grid12 ⟨none, none⟩ 10 1 1 11 1
    (by decide) (by decide) (by decide)

/-- C9: a cached row or column index equal to 0 is falsy in Python, so the
windowed branch is skipped and `get_colocation` with `use_cache = True`
coincides with the full-grid search, result and cache update included. -/
theorem c9_zero_index_disables_cache {α : Type} [LinearOrderedRing α]
    (dist : α → α → α → α → α) (g : Grid α)
    (st : ColState) (lat lon d_max : α)
    (h : st.i_cached = some 0 ∨ st.j_cached = some 0) :
    get_colocation dist g st lat lon d_max true =
      get_colocation dist g st lat lon d_max false := by
  rcases h with h | h <;>
    simp [get_colocation, truthy, h]

/-- C9 witness: cache `(0, 5)` on `grid12`; the cached run equals the
uncached run. -/
theorem c9_zero_index_disables_cache_witness :
    (⟨some 0, some 5⟩ : ColState).i_cached = some 0 ∧
    get_colocation sqDist grid12 ⟨some 0, some 5⟩ 3 1 1 true =
      get_colocation sqDist grid12 ⟨some 0, some 5⟩ 3 1 1 false :=
  ⟨rfl, c9_zero_index_disables_cache sqDist grid12 ⟨some 0, some 5⟩ 3 1 1 (Or.inl rfl)⟩

/-! ### DataProduct temporal resolution (`products.py`) -/

/-- The two adapter-supplied primitives a `DataProduct` is built on:
`get_files(year, day)` (here keyed by the absolute calendar-day number)
and `name_to_date(filename)` (here directly the timestamp in seconds). -/
structure Catalog (F : Type) where
  get_files : Int → List F
  name_to_date : F → Int

/-- Source `DataProduct.get_preceeding_file(filename)`: locate the file in
its own day's listing; if it is first, return the last file of the
previous day, otherwise the previous entry of the listing. -/
def get_preceeding_file {F : Type} [DecidableEq F] (cat : Catalog F) (f : F) :
    Except PyErr F := do
  let t := cat.name_to_date f
  let files := cat.get_files (dayOf t)
  let i ← pyIndex files f
  if i = 0 then
    pyGet (cat.get_files (dayOf (t - 86400))) (-1)
  else
    pyGet files ((i : Int) - 1)

/-- Source `DataProduct.get_following_file(filename)`: locate the file in
its own day's listing; if it is last, return the first file of the next
day, otherwise the next entry of the listing. -/
def get_following_file {F : Type} [DecidableEq F] (cat : Catalog F) (f : F) :
    Except PyErr F := do
  let t := cat.name_to_date f
  let files := cat.get_files (dayOf t)
  let i ← pyIndex files f
  if i = files.length - 1 then
    pyGet (cat.get_files (dayOf (t + 86400))) 0
  else
    pyGet files ((i : Int) + 1)

/-- Number of iterations of the source loop
`t = t0; while (t1 - t).total_seconds() > 0: ...; t += timedelta(days=1)`,
i.e. the number of `k ≥ 0` with `t0 + 86400 * k < t1`. -/
def numDays (t0 t1 : Int) : Nat :=
  if t1 ≤ t0 then 0 else (t1 - t0 - 1).toNat / 86400 + 1

/-- One iteration of the scan: the files of day `d` whose start time `s`
satisfies `s - t0 ≥ 0` and not `s - t1 > 0` (source `pos0` / `pos1`),
in listing order. -/
def selectDay {F : Type} (cat : Catalog F) (t0 t1 d : Int) : List F :=
  (cat.get_files d).filter
    (fun f => decide (t0 ≤ cat.name_to_date f) && decide (cat.name_to_date f ≤ t1))

/-- The `files` accumulated by the day-by-day scan: iteration `k` visits
the calendar day of `t0 + 86400 * k`. -/
def loopFiles {F : Type} (cat : Catalog F) (t0 t1 : Int) : List F :=
  (List.range (numDays t0 t1)).flatMap
    (fun k => selectDay cat t0 t1 (dayOf (t0 + 86400 * k)))

/-- The candidate pool of the force-non-empty fallback: the source takes
`y0, d0` from `t0` but `y1, d1` from `t + dt` where `t` is the loop
cursor, which has already advanced to `t0 + numDays` days — so the second
day inspected is `dayOf t0 + numDays + 1`, not the day after `t0`. -/
def fallbackPool {F : Type} (cat : Catalog F) (t0 t1 : Int) : List F :=
  cat.get_files (dayOf t0) ++
    cat.get_files (dayOf (t0 + 86400 * (numDays t0 t1 : Int) + 86400))

/-- Helper for `np.argmin`: first index of the minimum, accumulator style.
`i` is the index of the next element, `bi`/`bv` the best index and value
so far. -/
def argminIdxGo (vals : List Nat) (i bi bv : Nat) : Nat :=
  match vals with
  | [] => bi
  | v :: vs => if v < bv then argminIdxGo vs (i + 1) i v else argminIdxGo vs (i + 1) bi bv

/-- Source `np.argmin`: index of the first occurrence of the minimum
(the source applies it to `np.abs` of second differences). -/
def argminIdx (vals : List Nat) : Nat :=
  match vals with
  | [] => 0
  | v :: vs => argminIdxGo vs 1 0 v

/-- The `pos1` list that leaks out of the source's `while` loop: the
`pos1` computed by the FINAL iteration (day `t0 + (numDays - 1)` days),
or `none` when the loop body never ran (`pos1` unassigned). -/
def pos1Last {F : Type} (cat : Catalog F) (t0 t1 : Int) : Option (List Bool) :=
  if numDays t0 t1 = 0 then none
  else
    some ((cat.get_files (dayOf (t0 + 86400 * ((numDays t0 t1 : Int) - 1)))).map
      (fun f => decide (t1 < cat.name_to_date f)))

/-- Source `DataProduct.get_files_in_range(t0, t1, t0_inclusive,
t1_inclusive)`: the day-by-day scan, the force-non-empty fallback, the
optional preceding-file prepend, the `not pos1[-1]` following-file append
(reading the loop variable `pos1`, which is unbound when the loop never
ran), and the optional extra following-file append. -/
def get_files_in_range {F : Type} [DecidableEq F] (cat : Catalog F)
    (t0 t1 : Int) (t0_inclusive t1_inclusive : Bool) : Except PyErr (List F) := do
  let files0 := loopFiles cat t0 t1
  let files1 ←
    if files0.length < 1 then do
      let fs := fallbackPool cat t0 t1
      if fs.isEmpty then
        Except.error PyErr.valueError
      else do
        let ind := argminIdx (fs.map (fun f => (cat.name_to_date f - t0).natAbs))
        let x ← pyGet fs (ind : Int)
        pure [x]
    else pure files0
  let files2 ←
    if t0_inclusive && !files1.isEmpty then do
      let f0 ← pyGet files1 0
      let fp ← get_preceeding_file cat f0
      pure (fp :: files1)
    else pure files1
  let files3 ←
    if !files2.isEmpty then
      match pos1Last cat t0 t1 with
      | none => Except.error PyErr.unboundLocal
      | some pos1 => do
        let b ← pyGet pos1 (-1)
        if b then pure files2
        else do
          let fl ← pyGet files2 (-1)
          let ff ← get_following_file cat fl
          pure (files2 ++ [ff])
    else pure files2
  let files4 ←
    if t1_inclusive && !files3.isEmpty then do
      let fl ← pyGet files3 (-1)
      let ff ← get_following_file cat fl
      pure (files3 ++ [ff])
    else pure files3
  return files4

/-- The candidate list of `get_file_by_date`: `files[-1:]` of the
previous calendar day plus all files of `t`'s day. -/
def candidates {F : Type} (cat : Catalog F) (t : Int) : List F :=
  let prev := cat.get_files (dayOf (t - 86400))
  prev.drop (prev.length - 1) ++ cat.get_files (dayOf t)

/-- Stable insertion of index `i` into an index list sorted by `vals`:
`i` goes after every index whose value is ≤ its own. -/
def insertIdx (vals : List Int) (i : Nat) : List Nat → List Nat
  | [] => [i]
  | j :: rest =>
    if vals.getD j 0 ≤ vals.getD i 0 then j :: insertIdx vals i rest
    else i :: j :: rest

/-- Model of `np.argsort(vals)`: the permutation of `0, ..., len - 1`
listing positions in ascending order of value (stable insertion sort;
`np.argsort` leaves the order of equal values unspecified, and every use
in the proofs below is on lists without ties). -/
def argsort (vals : List Int) : List Nat :=
  (List.range vals.length).foldl (fun acc i => insertIdx vals i acc) []

/-- Model of `np.where(sortedVals < 0)[0]`: the positions (ascending) at
which the condition holds. -/
def whereNeg (sortedVals : List Int) : List Nat :=
  (List.range sortedVals.length).filter (fun p => decide (sortedVals.getD p 0 < 0))

/-- Source `DataProduct.get_file_by_date(t)`: sort the candidates (last
file of the previous day + all files of `t`'s day) by signed difference
to `t`; if some difference is negative return the candidate realising the
largest negative one, else return `files[len(dts) - 1]`, the LAST
candidate of the list. -/
def get_file_by_date {F : Type} [DecidableEq F] (cat : Catalog F) (t : Int) :
    Except PyErr F := do
  let files := candidates cat t
  let dts := files.map (fun f => cat.name_to_date f - t)
  let inds := argsort dts
  let sortedDts := inds.map (fun i => dts.getD i 0)
  let indices := whereNeg sortedDts
  if indices.isEmpty then
    pyGet files ((files.length : Int) - 1)
  else do
    let pLast ← pyGet indices (-1)
    let ind ← pyGet inds (pLast : Int)
    pyGet files (ind : Int)

/-- The specification's scenario catalog: day 0 holds files starting at
01:30, 03:10 and 05:00 UTC (identified with their timestamps in seconds),
every other day is empty. -/
def scenarioCat : Catalog Int :=
  ⟨fun d => if d = 0 then [5400, 11400, 18000] else [], fun f => f⟩

/-- C2 counterexample: on the specification's own scenario
(`files_covering(02:00, 04:30, false, false)` over the 01:30/03:10/05:00
day) the code returns only the 03:10 file: the appended-following check
tests the last file of the DAY LISTING (05:00, which exceeds 04:30)
rather than the last SELECTED file (03:10), so nothing is appended, the
result is not `[03:10, 05:00]`, and the last start time 03:10 does not
bracket `t1 = 04:30` from above. -/
theorem c2_counterexample :
    get_files_in_range scenarioCat 7200 16200 false false = .ok [11400] ∧
    ([11400] : List Int) ≠ [11400, 18000] ∧
    ¬ ((16200 : Int) ≤ 11400) := by
  refine ⟨rfl, by decide, by decide⟩

/-- Catalog for C5: day 0 holds a file at 00:00, day 1 a file at 01:00
(of day 1), day 2 a file at 23:36:40 (of day 2). -/
def c5Cat : Catalog Int :=
  ⟨fun d =>
    if d = 0 then [0] else if d = 1 then [90000] else if d = 2 then [257800] else [],
   fun f => f⟩

/-- C5: evaluation of the code at the failing input.  For the same-day
range `t0 = 23:00, t1 = 23:30` of day 0 no file starts inside the range,
so the fallback runs — but it pools day 0 with day 2 (the loop cursor has
already advanced), skipping day 1 entirely, and therefore selects the
00:00 file of day 0 even though day 1's file at 90000 is strictly closer
to `t0 = 82800`.  The claimed pool (days of `t0` and `t0 + 1` day) would
have selected 90000. -/
theorem c5_fallback_pools_wrong_days :
    fallbackPool c5Cat 82800 84600 = [0, 257800] ∧
    get_files_in_range c5Cat 82800 84600 false false = .ok [0, 90000] ∧
    (90000 : Int) ∈ c5Cat.get_files 1 ∧
    ((90000 : Int) - 82800).natAbs < ((0 : Int) - 82800).natAbs := by
  refine ⟨rfl, rfl, by decide, by decide⟩

/-- C8 counterexample: called with `t0 ≥ t1` on the scenario catalog, the
code raises `UnboundLocalError` (the loop never assigns `pos1`, which is
then read), not the specification's `RangeError`. -/
theorem c8_counterexample :
    get_files_in_range scenarioCat 16200 7200 false false =
      .error PyErr.unboundLocal ∧
    PyErr.unboundLocal ≠ PyErr.rangeError := by
  refine ⟨rfl, by decide⟩

/-- Catalog for the C4 counterexample: day 0 holds files at 01:30 and
03:10, every other day is empty. -/
def c4Cat : Catalog Int :=
  ⟨fun d => if d = 0 then [5400, 11400] else [], fun f => f⟩

/-- C4 counterexample: at `t = 01:00`, no candidate starts strictly before
`t`, and the code returns the LAST candidate (03:10) — not the closest one
(01:30, whose absolute difference 1800 s is smaller than 03:10's
7800 s). -/
theorem c4_counterexample :
    get_file_by_date c4Cat 3600 = .ok 11400 ∧
    (5400 : Int) ∈ candidates c4Cat 3600 ∧
    ((5400 : Int) - 3600).natAbs < ((11400 : Int) - 3600).natAbs := by
  refine ⟨rfl, by decide, by decide⟩

/-! ### Helper lemmas about the Python primitives -/

theorem except_bind_ok {ε α β : Type} (a : α) (f : α → Except ε β) :
    (Except.ok a >>= f) = f a := rfl

theorem except_bind_error {ε α β : Type} (e : ε) (f : α → Except ε β) :
    ((Except.error e : Except ε α) >>= f) = Except.error e := rfl

theorem except_pure_eq {ε α : Type} (a : α) : (pure a : Except ε α) = .ok a := rfl

theorem pyGet_nat {α : Type} (l : List α) (i : Nat) (h : i < l.length) :
    pyGet l (i : Int) = .ok (l.get ⟨i, h⟩) := by
  have h0 : ¬ ((i : Int) < 0) := by omega
  have h1 : 0 ≤ (i : Int) ∧ (i : Int) < (l.length : Int) := by
    constructor
    · omega
    · exact_mod_cast h
  unfold pyGet
  simp only [if_neg h0]
  rw [dif_pos h1]
  congr 1

theorem pyGet_neg_one {α : Type} (l : List α) (h : l ≠ []) :
    pyGet l (-1) = .ok (l.getLast h) := by
  have hlen : 0 < l.length := List.length_pos.mpr h
  have h0 : ((-1 : Int) < 0) := by norm_num
  have h1 : 0 ≤ (-1 : Int) + l.length ∧ (-1 : Int) + l.length < (l.length : Int) := by omega
  have hidx : ((-1 : Int) + (l.length : Int)).toNat = l.length - 1 := by omega
  unfold pyGet
  simp only [if_pos h0]
  rw [dif_pos h1]
  congr 1
  simp only [List.getLast_eq_getElem, List.get_eq_getElem, hidx]

theorem argminIdxGo_lt (vals : List Nat) :
    ∀ i bi bv, bi < i → argminIdxGo vals i bi bv < i + vals.length := by
  induction vals with
  | nil =>
    intro i bi bv h
    simpa [argminIdxGo] using Nat.lt_of_lt_of_le h (Nat.le_add_right i 0)
  | cons v vs ih =>
    intro i bi bv h
    unfold argminIdxGo
    by_cases hc : v < bv
    · rw [if_pos hc]
      have := ih (i + 1) i v (Nat.lt_succ_self i)
      simpa [Nat.add_assoc, Nat.add_comm, Nat.add_left_comm] using this
    · rw [if_neg hc]
      have := ih (i + 1) bi bv (Nat.lt_succ_of_lt h)
      simpa [Nat.add_assoc, Nat.add_comm, Nat.add_left_comm] using this

theorem argminIdx_lt_length (vals : List Nat) (h : vals ≠ []) :
    argminIdx vals < vals.length := by
  match vals, h with
  | v :: vs, _ =>
    have := argminIdxGo_lt vs 1 0 v (Nat.zero_lt_one)
    simpa [argminIdx, Nat.add_comm] using this

/-! ### C8: behaviour of `get_files_in_range` on an empty range -/

/-- C8 amended: for `t0 ≥ t1` (so the scan loop never runs and never
assigns `pos1`), `get_files_in_range(t0, t1, False, _)` raises
`UnboundLocalError` when reading `pos1` — provided the fallback pool is
non-empty (otherwise `np.argmin` of an empty array raises `ValueError`
first).  No `RangeError` exists anywhere in the source. -/
theorem c8_empty_range_unbound_local {F : Type} [DecidableEq F]
    (cat : Catalog F) (t0 t1 : Int) (t1inc : Bool)
    (hle : t1 ≤ t0) (hfb : fallbackPool cat t0 t1 ≠ []) :
    get_files_in_range cat t0 t1 false t1inc = .error PyErr.unboundLocal := by
  have hN : numDays t0 t1 = 0 := by simp [numDays, hle]
  have hloop : loopFiles cat t0 t1 = [] := by simp [loopFiles, hN]
  have hpos : pos1Last cat t0 t1 = none := by simp [pos1Last, hN]
  have hmaplen : (fallbackPool cat t0 t1).map
      (fun f => (cat.name_to_date f - t0).natAbs) ≠ [] := by
    simpa using hfb
  have hlt : argminIdx ((fallbackPool cat t0 t1).map
      (fun f => (cat.name_to_date f - t0).natAbs)) < (fallbackPool cat t0 t1).length := by
    have h2 := argminIdx_lt_length _ hmaplen
    simpa using h2
  have hx := pyGet_nat (fallbackPool cat t0 t1) _ hlt
  have hempty : (fallbackPool cat t0 t1).isEmpty = false := by
    simpa [List.isEmpty_iff] using hfb
  unfold get_files_in_range
  rw [hloop]
  simp only [List.length_nil, Nat.zero_lt_one, if_pos, hempty, Bool.false_eq_true,
    if_false, hx, except_bind_ok, except_pure_eq, Bool.false_and, List.isEmpty_cons,
    Bool.not_false, Bool.if_true_left, hpos, except_bind_error]

/-- C8 amended witness: the scenario catalog with `t0 = 16200 > t1 = 7200`
raises `UnboundLocalError`. -/
theorem c8_empty_range_unbound_local_witness :
    (7200 : Int) ≤ 16200 ∧
    get_files_in_range scenarioCat 16200 7200 false true = .error PyErr.unboundLocal :=
  ⟨by norm_num,
   c8_empty_range_unbound_local scenarioCat 16200 7200 true (by norm_num) (by decide)⟩

/-! ### C4: `get_file_by_date` -/

theorem map_getD_range {α : Type} (l : List α) (d : α) :
    (List.range l.length).map (fun i => l.getD i d) = l := by
  apply List.ext_getElem
  · simp
  · intro i h1 h2
    simp only [List.getElem_map, List.getElem_range]
    exact List.getD_eq_getElem l d h2

theorem insertIdx_append_of_le (vals : List Int) (k : Nat) :
    ∀ L : List Nat, (∀ j ∈ L, vals.getD j 0 ≤ vals.getD k 0) →
      insertIdx vals k L = L ++ [k] := by
  intro L
  induction L with
  | nil => intro _; rfl
  | cons j rest ih =>
    intro hL
    simp only [insertIdx]
    rw [if_pos (hL j (List.mem_cons_self j rest))]
    rw [ih (fun x hx => hL x (List.mem_cons_of_mem j hx))]
    rfl

theorem argsort_eq_range (vals : List Int)
    (hs : ∀ a b : Nat, a < b → b < vals.length → vals.getD a 0 ≤ vals.getD b 0) :
    argsort vals = List.range vals.length := by
  suffices h : ∀ k, k ≤ vals.length →
      (List.range k).foldl (fun acc i => insertIdx vals i acc) [] = List.range k by
    exact h vals.length (le_refl _)
  intro k
  induction k with
  | zero => intro _; rfl
  | succ k ih =>
    intro hk
    rw [List.range_succ, List.foldl_append, ih (Nat.le_of_succ_le hk)]
    simp only [List.foldl_cons, List.foldl_nil]
    rw [insertIdx_append_of_le vals k (List.range k)
      (fun j hj => hs j k (List.mem_range.1 hj) (Nat.lt_of_succ_le hk)),
      ← List.range_succ]

theorem mem_whereNeg {l : List Int} {p : Nat} :
    p ∈ whereNeg l ↔ p < l.length ∧ l.getD p 0 < 0 := by
  simp [whereNeg, List.mem_filter, List.mem_range]

theorem whereNeg_pairwise (l : List Int) : (whereNeg l).Pairwise (· < ·) :=
  List.Pairwise.filter _ (List.pairwise_lt_range _)

theorem pairwise_lt_le_getLast (l : List Nat) :
    ∀ (h : l ≠ []), l.Pairwise (· < ·) → ∀ x ∈ l, x ≤ l.getLast h := by
  induction l with
  | nil => intro h; exact absurd rfl h
  | cons a t ih =>
    intro h hp x hx
    rcases List.mem_cons.1 hx with rfl | hx2
    · cases t with
      | nil => simp [List.getLast]
      | cons b t2 =>
        have hbt : (b :: t2) ≠ [] := by simp
        have hlast : (x :: b :: t2).getLast h = (b :: t2).getLast hbt :=
          List.getLast_cons hbt
        have hmem := List.getLast_mem hbt
        have hlt := (List.pairwise_cons.1 hp).1 _ hmem
        omega
    · cases t with
      | nil => cases hx2
      | cons b t2 =>
        have hbt : (b :: t2) ≠ [] := by simp
        have hlast : (a :: b :: t2).getLast h = (b :: t2).getLast hbt :=
          List.getLast_cons hbt
        rw [hlast]
        exact ih hbt (List.pairwise_cons.1 hp).2 x hx2

/-- C4 amended: over strictly chronologically sorted candidates,
`get_file_by_date t` returns the candidate (last file of the previous day
+ files of `t`'s day) with the latest start time strictly before `t` when
one exists; otherwise it returns the LAST candidate of the list (the
final file of `t`'s day), not the candidate closest to `t`. -/
theorem c4_get_file_by_date {F : Type} [DecidableEq F] (cat : Catalog F) (t : Int)
    (hne : candidates cat t ≠ [])
    (hsort : (candidates cat t).Pairwise
      (fun a b => cat.name_to_date a < cat.name_to_date b)) :
    ((∃ f ∈ candidates cat t, cat.name_to_date f < t) →
      ∃ g, get_file_by_date cat t = .ok g ∧ g ∈ candidates cat t ∧
        cat.name_to_date g < t ∧
        ∀ f ∈ candidates cat t, cat.name_to_date f < t →
          cat.name_to_date f ≤ cat.name_to_date g) ∧
    ((∀ f ∈ candidates cat t, ¬ cat.name_to_date f < t) →
      ∃ g, get_file_by_date cat t = .ok g ∧
        (candidates cat t).getLast? = some g) := by
  have hkey : get_file_by_date cat t =
      (let dts := (candidates cat t).map (fun f => cat.name_to_date f - t)
       let inds := argsort dts
       let sortedDts := inds.map (fun i => dts.getD i 0)
       let indices := whereNeg sortedDts
       if indices.isEmpty then
         pyGet (candidates cat t) (((candidates cat t).length : Int) - 1)
       else do
         let pLast ← pyGet indices (-1)
         let ind ← pyGet inds ((pLast : Int))
         pyGet (candidates cat t) ((ind : Int))) := rfl
  obtain ⟨C, hC⟩ : ∃ C, candidates cat t = C := ⟨_, rfl⟩
  rw [hC] at hne hsort hkey ⊢
  simp only at hkey
  have hlen : (C.map (fun f => cat.name_to_date f - t)).length = C.length := by simp
  have hdval : ∀ p, (hp : p < C.length) →
      (C.map (fun f => cat.name_to_date f - t)).getD p 0 =
        cat.name_to_date (C.get ⟨p, hp⟩) - t := by
    intro p hp
    have h2 : p < (C.map (fun f => cat.name_to_date f - t)).length := by omega
    rw [List.getD_eq_getElem _ 0 h2]
    simp [List.getElem_map, List.get_eq_getElem]
  have hs : ∀ a b : Nat, a < b → b < (C.map (fun f => cat.name_to_date f - t)).length →
      (C.map (fun f => cat.name_to_date f - t)).getD a 0 ≤
        (C.map (fun f => cat.name_to_date f - t)).getD b 0 := by
    intro a b hab hb
    have hbC : b < C.length := by omega
    have haC : a < C.length := by omega
    rw [hdval a haC, hdval b hbC]
    have hord := List.pairwise_iff_get.1 hsort ⟨a, haC⟩ ⟨b, hbC⟩ (Fin.mk_lt_mk.2 hab)
    omega
  have hargsort := argsort_eq_range (C.map (fun f => cat.name_to_date f - t)) hs
  have hmapback := map_getD_range (C.map (fun f => cat.name_to_date f - t)) (0 : Int)
  rw [hargsort, hmapback] at hkey
  constructor
  · intro hex
    obtain ⟨f0, hf0mem, hf0⟩ := hex
    obtain ⟨p0, hp0lt, hp0eq⟩ := List.getElem_of_mem hf0mem
    have hneg0 : (C.map (fun f => cat.name_to_date f - t)).getD p0 0 < 0 := by
      rw [hdval p0 hp0lt]
      have hg : C.get ⟨p0, hp0lt⟩ = f0 := by simp [List.get_eq_getElem, hp0eq]
      rw [hg]
      omega
    have hp0d : p0 < (C.map (fun f => cat.name_to_date f - t)).length := by omega
    have hmem0 : p0 ∈ whereNeg (C.map (fun f => cat.name_to_date f - t)) :=
      mem_whereNeg.2 ⟨hp0d, hneg0⟩
    have hWne := List.ne_nil_of_mem hmem0
    have hWempty : (whereNeg (C.map (fun f => cat.name_to_date f - t))).isEmpty = false := by
      simpa [List.isEmpty_iff] using hWne
    have hp1mem := List.getLast_mem hWne
    obtain ⟨hp1d, hp1neg⟩ := mem_whereNeg.1 hp1mem
    have hp1C : (whereNeg (C.map (fun f => cat.name_to_date f - t))).getLast hWne <
        C.length := by omega
    have hrange : (whereNeg (C.map (fun f => cat.name_to_date f - t))).getLast hWne <
        (List.range (C.map (fun f => cat.name_to_date f - t)).length).length := by
      simpa using hp1d
    have hgr : (List.range (C.map (fun f => cat.name_to_date f - t)).length).get
        ⟨_, hrange⟩ =
        (whereNeg (C.map (fun f => cat.name_to_date f - t))).getLast hWne := by
      simp [List.get_eq_getElem, List.getElem_range]
    rw [hkey, if_neg (by simp [hWempty]), pyGet_neg_one _ hWne, except_bind_ok,
      pyGet_nat _ _ hrange, except_bind_ok, hgr, pyGet_nat _ _ hp1C]
    refine ⟨C.get ⟨_, hp1C⟩, rfl, List.get_mem C _ hp1C, ?_, ?_⟩
    · have := hdval _ hp1C
      omega
    · intro f hfmem hflt
      obtain ⟨q, hqlt, hqeq⟩ := List.getElem_of_mem hfmem
      have hqneg : (C.map (fun f => cat.name_to_date f - t)).getD q 0 < 0 := by
        rw [hdval q hqlt]
        have hg : C.get ⟨q, hqlt⟩ = f := by simp [List.get_eq_getElem, hqeq]
        rw [hg]
        omega
      have hqd : q < (C.map (fun f => cat.name_to_date f - t)).length := by omega
      have hqmem : q ∈ whereNeg (C.map (fun f => cat.name_to_date f - t)) :=
        mem_whereNeg.2 ⟨hqd, hqneg⟩
      have hqle := pairwise_lt_le_getLast _ hWne
        (whereNeg_pairwise (C.map (fun f => cat.name_to_date f - t))) q hqmem
      rcases Nat.lt_or_ge q ((whereNeg (C.map (fun f => cat.name_to_date f - t))).getLast
          hWne) with hqlt1 | hqge
      · have hord := List.pairwise_iff_get.1 hsort ⟨q, hqlt⟩ ⟨_, hp1C⟩
          (Fin.mk_lt_mk.2 hqlt1)
        have hg : C.get ⟨q, hqlt⟩ = f := by simp [List.get_eq_getElem, hqeq]
        rw [hg] at hord
        omega
      · have heq : q = (whereNeg (C.map (fun f => cat.name_to_date f - t))).getLast
            hWne := by omega
        have hg : C.get ⟨q, hqlt⟩ = f := by simp [List.get_eq_getElem, hqeq]
        subst heq
        rw [← hg]
  · intro hall
    have hWnil : whereNeg (C.map (fun f => cat.name_to_date f - t)) = [] := by
      rcases hW : whereNeg (C.map (fun f => cat.name_to_date f - t)) with _ | ⟨p, rest⟩
      · rfl
      · exfalso
        have hpmem : p ∈ whereNeg (C.map (fun f => cat.name_to_date f - t)) := by
          rw [hW]
          exact List.mem_cons_self p rest
        obtain ⟨hpd, hpneg⟩ := mem_whereNeg.1 hpmem
        have hpC : p < C.length := by omega
        rw [hdval p hpC] at hpneg
        have := hall _ (List.get_mem C _ hpC)
        omega
    have hflen : 0 < C.length := List.length_pos.mpr hne
    have hcast : ((C.length : Int) - 1) = ((C.length - 1 : Nat) : Int) := by omega
    have hlt : C.length - 1 < C.length := by omega
    refine ⟨C.getLast hne, ?_, List.getLast?_eq_getLast C hne⟩
    rw [hkey, hWnil]
    simp only [List.isEmpty_nil, if_true]
    rw [hcast, pyGet_nat _ _ hlt]
    congr 1
    rw [List.getLast_eq_getElem]
    simp [List.get_eq_getElem]

/-- C4 witness: the specification's scenario — day 0 holds 01:30, 03:10,
05:00; `get_file_by_date(04:00)` returns the 03:10 file, the latest start
strictly before 04:00. -/
theorem c4_get_file_by_date_witness :
    (((∃ f ∈ candidates scenarioCat 14400, scenarioCat.name_to_date f < 14400) →
      ∃ g, get_file_by_date scenarioCat 14400 = .ok g ∧
        g ∈ candidates scenarioCat 14400 ∧
        scenarioCat.name_to_date g < 14400 ∧
        ∀ f ∈ candidates scenarioCat 14400, scenarioCat.name_to_date f < 14400 →
          scenarioCat.name_to_date f ≤ scenarioCat.name_to_date g) ∧
    ((∀ f ∈ candidates scenarioCat 14400, ¬ scenarioCat.name_to_date f < 14400) →
      ∃ g, get_file_by_date scenarioCat 14400 = .ok g ∧
        (candidates scenarioCat 14400).getLast? = some g)) ∧
    get_file_by_date scenarioCat 14400 = .ok 11400 :=
  ⟨c4_get_file_by_date scenarioCat 14400 (by decide) (by decide), rfl⟩

/-! ### C7: `get_preceeding_file` / `get_following_file` round trips -/

theorem pyIndex_ok {α : Type} [DecidableEq α] {l : List α} {x : α} (h : x ∈ l) :
    pyIndex l x = .ok (l.indexOf x) := by
  simp [pyIndex, h]

theorem pyGet_zero {α : Type} (l : List α) (h : 0 < l.length) :
    pyGet l 0 = .ok (l.get ⟨0, h⟩) := by
  have h2 := pyGet_nat l 0 h
  simpa using h2

theorem pyGet_int_add_one {α : Type} (l : List α) (i : Nat) (h : i + 1 < l.length) :
    pyGet l ((i : Int) + 1) = .ok (l.get ⟨i + 1, h⟩) := by
  have hc : ((i : Int) + 1) = ((i + 1 : Nat) : Int) := by push_cast; ring
  rw [hc]
  exact pyGet_nat l (i + 1) h

theorem pyGet_int_sub_one {α : Type} (l : List α) (i : Nat) (hi : 1 ≤ i)
    (h : i - 1 < l.length) :
    pyGet l ((i : Int) - 1) = .ok (l.get ⟨i - 1, h⟩) := by
  have hc : ((i : Int) - 1) = ((i - 1 : Nat) : Int) := by omega
  rw [hc]
  exact pyGet_nat l (i - 1) h

theorem indexOf_head {α : Type} [DecidableEq α] (l : List α) (h : 0 < l.length) :
    l.indexOf (l.get ⟨0, h⟩) = 0 := by
  cases l with
  | nil => simp at h
  | cons a t => simp [List.indexOf_cons_self]

theorem getElem_of_indexOf_eq {α : Type} [DecidableEq α] (l : List α) (x : α)
    (k : Nat) (hk : k < l.length) (heq : l.indexOf x = k) :
    l.get ⟨k, hk⟩ = x := by
  subst heq
  exact List.indexOf_get hk

theorem indexOf_getLast_of_nodup {α : Type} [DecidableEq α] (l : List α)
    (h : l ≠ []) (hnd : l.Nodup) :
    l.indexOf (l.getLast h) = l.length - 1 := by
  rw [List.getLast_eq_getElem]
  exact List.indexOf_getElem hnd _ _

/-- C7: for a file `f` that is not at an archive boundary — it occurs in
the (duplicate-free) listing of its own calendar day, the adjacent days'
listings are non-empty and duplicate-free, and all three listings are
day-consistent — `get_preceeding_file` and `get_following_file` are
mutually inverse at `f`. -/
theorem c7_preceeding_following_inverse {F : Type} [DecidableEq F]
    (cat : Catalog F) (f : F)
    (hmem : f ∈ cat.get_files (dayOf (cat.name_to_date f)))
    (hnd0 : (cat.get_files (dayOf (cat.name_to_date f))).Nodup)
    (hndp : (cat.get_files (dayOf (cat.name_to_date f) - 1)).Nodup)
    (hnep : cat.get_files (dayOf (cat.name_to_date f) - 1) ≠ [])
    (hnen : cat.get_files (dayOf (cat.name_to_date f) + 1) ≠ [])
    (hconsp : ∀ g ∈ cat.get_files (dayOf (cat.name_to_date f) - 1),
      dayOf (cat.name_to_date g) = dayOf (cat.name_to_date f) - 1)
    (hconsn : ∀ g ∈ cat.get_files (dayOf (cat.name_to_date f) + 1),
      dayOf (cat.name_to_date g) = dayOf (cat.name_to_date f) + 1)
    (hcons0 : ∀ g ∈ cat.get_files (dayOf (cat.name_to_date f)),
      dayOf (cat.name_to_date g) = dayOf (cat.name_to_date f)) :
    ((get_following_file cat f) >>= fun g => get_preceeding_file cat g) = .ok f ∧
    ((get_preceeding_file cat f) >>= fun g => get_following_file cat g) = .ok f := by
  have hlen0 : 0 < (cat.get_files (dayOf (cat.name_to_date f))).length :=
    List.length_pos.mpr (List.ne_nil_of_mem hmem)
  have hidx : (cat.get_files (dayOf (cat.name_to_date f))).indexOf f <
      (cat.get_files (dayOf (cat.name_to_date f))).length :=
    List.indexOf_lt_length.2 hmem
  have hgetf : (cat.get_files (dayOf (cat.name_to_date f))).get
      ⟨(cat.get_files (dayOf (cat.name_to_date f))).indexOf f, hidx⟩ = f :=
    List.indexOf_get hidx
  constructor
  · -- preceding (following f) = f
    by_cases hlast : (cat.get_files (dayOf (cat.name_to_date f))).indexOf f =
        (cat.get_files (dayOf (cat.name_to_date f))).length - 1
    · -- f is last in its day: following goes to the head of the next day
      have hlen1 : 0 < (cat.get_files (dayOf (cat.name_to_date f) + 1)).length :=
        List.length_pos.mpr hnen
      have hfol : get_following_file cat f =
          .ok ((cat.get_files (dayOf (cat.name_to_date f) + 1)).get ⟨0, hlen1⟩) := by
        simp only [get_following_file]
        rw [pyIndex_ok hmem, except_bind_ok, if_pos hlast, dayOf_add_day]
        exact pyGet_zero _ hlen1
      rw [hfol, except_bind_ok]
      have hmem1 := List.get_mem _ 0 hlen1
      have hday1 := hconsn _ hmem1
      simp only [get_preceeding_file]
      rw [hday1, pyIndex_ok hmem1, except_bind_ok, indexOf_head _ hlen1, if_pos rfl]
      have hback : dayOf (cat.name_to_date
          ((cat.get_files (dayOf (cat.name_to_date f) + 1)).get ⟨0, hlen1⟩) - 86400) =
          dayOf (cat.name_to_date f) := by
        rw [dayOf_sub_day, hday1]
        omega
      rw [hback, pyGet_neg_one _ (List.ne_nil_of_mem hmem)]
      rw [List.getLast_eq_getElem]
      exact congrArg Except.ok (getElem_of_indexOf_eq _ f _ _ hlast)
    · -- f is interior: following is the next entry of the same listing
      have hlt : (cat.get_files (dayOf (cat.name_to_date f))).indexOf f + 1 <
          (cat.get_files (dayOf (cat.name_to_date f))).length := by omega
      have hfol : get_following_file cat f =
          .ok ((cat.get_files (dayOf (cat.name_to_date f))).get ⟨_ + 1, hlt⟩) := by
        simp only [get_following_file]
        rw [pyIndex_ok hmem, except_bind_ok, if_neg hlast]
        exact pyGet_int_add_one _ _ hlt
      rw [hfol, except_bind_ok]
      have hmemg := List.get_mem _ _ hlt
      have hdayg := hcons0 _ hmemg
      simp only [get_preceeding_file]
      rw [hdayg, pyIndex_ok hmemg, except_bind_ok]
      have hidxg : (cat.get_files (dayOf (cat.name_to_date f))).indexOf
          ((cat.get_files (dayOf (cat.name_to_date f))).get ⟨_ + 1, hlt⟩) =
          (cat.get_files (dayOf (cat.name_to_date f))).indexOf f + 1 := by
        have := List.indexOf_getElem hnd0
          ((cat.get_files (dayOf (cat.name_to_date f))).indexOf f + 1) hlt
        simpa [List.get_eq_getElem] using this
      rw [hidxg, if_neg (by omega)]
      have hstep : pyGet (cat.get_files (dayOf (cat.name_to_date f)))
          ((((cat.get_files (dayOf (cat.name_to_date f))).indexOf f + 1 : Nat) : Int) - 1) =
          .ok ((cat.get_files (dayOf (cat.name_to_date f))).get ⟨_, hidx⟩) := by
        have h2 := pyGet_int_sub_one (cat.get_files (dayOf (cat.name_to_date f)))
          ((cat.get_files (dayOf (cat.name_to_date f))).indexOf f + 1)
          (by omega) (by omega)
        exact h2
      rw [hstep, hgetf]
  · -- following (preceding f) = f
    by_cases hfirst : (cat.get_files (dayOf (cat.name_to_date f))).indexOf f = 0
    · -- f is first in its day: preceding goes to the last file of the previous day
      have hprec : get_preceeding_file cat f =
          .ok ((cat.get_files (dayOf (cat.name_to_date f) - 1)).getLast hnep) := by
        simp only [get_preceeding_file]
        rw [pyIndex_ok hmem, except_bind_ok, if_pos hfirst, dayOf_sub_day]
        exact pyGet_neg_one _ hnep
      rw [hprec, except_bind_ok]
      have hmemg := List.getLast_mem hnep
      have hdayg := hconsp _ hmemg
      simp only [get_following_file]
      rw [hdayg, pyIndex_ok hmemg, except_bind_ok,
        indexOf_getLast_of_nodup _ hnep hndp, if_pos rfl]
      have hfwd : dayOf (cat.name_to_date
          ((cat.get_files (dayOf (cat.name_to_date f) - 1)).getLast hnep) + 86400) =
          dayOf (cat.name_to_date f) := by
        rw [dayOf_add_day, hdayg]
        omega
      rw [hfwd, pyGet_zero _ hlen0]
      exact congrArg Except.ok (getElem_of_indexOf_eq _ f 0 hlen0 hfirst)
    · -- f is interior: preceding is the previous entry of the same listing
      have hlt : (cat.get_files (dayOf (cat.name_to_date f))).indexOf f - 1 <
          (cat.get_files (dayOf (cat.name_to_date f))).length := by omega
      have hprec : get_preceeding_file cat f =
          .ok ((cat.get_files (dayOf (cat.name_to_date f))).get ⟨_ - 1, hlt⟩) := by
        simp only [get_preceeding_file]
        rw [pyIndex_ok hmem, except_bind_ok, if_neg hfirst]
        exact pyGet_int_sub_one _ _ (by omega) hlt
      rw [hprec, except_bind_ok]
      have hmemg := List.get_mem _ _ hlt
      have hdayg := hcons0 _ hmemg
      simp only [get_following_file]
      rw [hdayg, pyIndex_ok hmemg, except_bind_ok]
      have hidxg : (cat.get_files (dayOf (cat.name_to_date f))).indexOf
          ((cat.get_files (dayOf (cat.name_to_date f))).get ⟨_ - 1, hlt⟩) =
          (cat.get_files (dayOf (cat.name_to_date f))).indexOf f - 1 := by
        have := List.indexOf_getElem hnd0
          ((cat.get_files (dayOf (cat.name_to_date f))).indexOf f - 1) hlt
        simpa [List.get_eq_getElem] using this
      rw [hidxg, if_neg (by omega)]
      have hstep : pyGet (cat.get_files (dayOf (cat.name_to_date f)))
          ((((cat.get_files (dayOf (cat.name_to_date f))).indexOf f - 1 : Nat) : Int) + 1) =
          .ok ((cat.get_files (dayOf (cat.name_to_date f))).get ⟨_, hidx⟩) := by
        have h2 := pyGet_int_add_one (cat.get_files (dayOf (cat.name_to_date f)))
          ((cat.get_files (dayOf (cat.name_to_date f))).indexOf f - 1)
          (by omega)
        rw [h2]
        congr 1
        apply congrArg
        apply Fin.ext
        exact Nat.sub_add_cancel (by omega)
      rw [hstep, hgetf]

/-! ### C2: `get_files_in_range` on a valid range -/

theorem numDays_pos (t0 t1 : Int) (ht : t0 < t1) : numDays t0 t1 ≠ 0 := by
  unfold numDays
  rw [if_neg (by omega)]
  omega

theorem date_lt_of_day_lt {x y d d1 : Int} (hx : dayOf x = d) (hy : dayOf y = d1)
    (h : d < d1) : x < y := by
  rw [dayOf_eq_iff] at hx hy
  omega

theorem selectDay_subset {F : Type} (cat : Catalog F) (t0 t1 d : Int) :
    ∀ f ∈ selectDay cat t0 t1 d, f ∈ cat.get_files d := by
  intro f hf
  exact List.mem_of_mem_filter hf

theorem selectDay_chain {F : Type} (cat : Catalog F) (t0 t1 d : Int)
    (hsort : (cat.get_files d).Pairwise
      (fun a b => cat.name_to_date a < cat.name_to_date b)) :
    (selectDay cat t0 t1 d).Chain'
      (fun a b => cat.name_to_date a ≤ cat.name_to_date b) := by
  have h1 : (selectDay cat t0 t1 d).Pairwise
      (fun a b => cat.name_to_date a < cat.name_to_date b) :=
    List.Pairwise.filter _ hsort
  exact (h1.imp (fun hab => le_of_lt hab)).chain'

theorem chain'_flatMap_range {F : Type} (g : Nat → List F) (key : F → Int) (N : Nat)
    (hchain : ∀ k, (g k).Chain' (fun a b => key a ≤ key b))
    (hcross : ∀ j k, j < k → ∀ a ∈ g j, ∀ b ∈ g k, key a ≤ key b) :
    ((List.range N).flatMap g).Chain' (fun a b => key a ≤ key b) := by
  induction N with
  | zero => simp
  | succ n ih =>
    rw [List.range_succ, List.flatMap_append]
    refine List.Chain'.append ih (by simpa using hchain n) ?_
    intro x hx y hy
    have hx2 : x ∈ (List.range n).flatMap g := List.mem_of_mem_getLast? hx
    obtain ⟨k, hk, hxk⟩ := List.mem_flatMap.1 hx2
    have hy2 : y ∈ [n].flatMap g := List.mem_of_mem_head? hy
    have hy3 : y ∈ g n := by simpa using hy2
    exact hcross k n (List.mem_range.1 hk) x hxk y hy3

theorem loopFiles_chain {F : Type} (cat : Catalog F) (t0 t1 : Int)
    (hday : ∀ d, ∀ f ∈ cat.get_files d, dayOf (cat.name_to_date f) = d)
    (hsort : ∀ d, (cat.get_files d).Pairwise
      (fun a b => cat.name_to_date a < cat.name_to_date b)) :
    (loopFiles cat t0 t1).Chain'
      (fun a b => cat.name_to_date a ≤ cat.name_to_date b) := by
  unfold loopFiles
  apply chain'_flatMap_range
  · intro k
    exact selectDay_chain cat t0 t1 _ (hsort _)
  · intro j k hjk a ha b hb
    have hda : dayOf (cat.name_to_date a) = dayOf t0 + j := by
      have h1 := selectDay_subset cat t0 t1 _ a ha
      have h2 := hday _ _ h1
      rw [h2, dayOf_add_mul]
    have hdb : dayOf (cat.name_to_date b) = dayOf t0 + k := by
      have h1 := selectDay_subset cat t0 t1 _ b hb
      have h2 := hday _ _ h1
      rw [h2, dayOf_add_mul]
    exact le_of_lt (date_lt_of_day_lt hda hdb (by omega))

theorem loopFiles_mem_own_day {F : Type} (cat : Catalog F) (t0 t1 : Int)
    (hday : ∀ d, ∀ f ∈ cat.get_files d, dayOf (cat.name_to_date f) = d) :
    ∀ x ∈ loopFiles cat t0 t1,
      x ∈ cat.get_files (dayOf (cat.name_to_date x)) := by
  intro x hx
  obtain ⟨k, hk, hxk⟩ := List.mem_flatMap.1 hx
  have h1 := selectDay_subset _ _ _ _ x hxk
  have h2 := hday _ x h1
  rw [h2]
  exact h1

theorem fallbackPool_mem_own_day {F : Type} (cat : Catalog F) (t0 t1 : Int)
    (hday : ∀ d, ∀ f ∈ cat.get_files d, dayOf (cat.name_to_date f) = d) :
    ∀ x ∈ fallbackPool cat t0 t1,
      x ∈ cat.get_files (dayOf (cat.name_to_date x)) := by
  intro x hx
  rcases List.mem_append.1 hx with h | h
  · have h2 := hday _ x h
    rw [h2]
    exact h
  · have h2 := hday _ x h
    rw [h2]
    exact h

/-- A following-file lookup over nonempty, day-consistent, strictly sorted
listings always succeeds and moves weakly forward in time. -/
theorem get_following_file_ok {F : Type} [DecidableEq F] (cat : Catalog F)
    (hne : ∀ d, cat.get_files d ≠ [])
    (hday : ∀ d, ∀ f ∈ cat.get_files d, dayOf (cat.name_to_date f) = d)
    (hsort : ∀ d, (cat.get_files d).Pairwise
      (fun a b => cat.name_to_date a < cat.name_to_date b))
    (f : F) (hf : f ∈ cat.get_files (dayOf (cat.name_to_date f))) :
    ∃ y, get_following_file cat f = .ok y ∧
      cat.name_to_date f ≤ cat.name_to_date y := by
  have hidx := List.indexOf_lt_length.2 hf
  by_cases hlast : (cat.get_files (dayOf (cat.name_to_date f))).indexOf f =
      (cat.get_files (dayOf (cat.name_to_date f))).length - 1
  · have hlen1 : 0 < (cat.get_files (dayOf (cat.name_to_date f) + 1)).length :=
      List.length_pos.mpr (hne _)
    refine ⟨(cat.get_files (dayOf (cat.name_to_date f) + 1)).get ⟨0, hlen1⟩, ?_, ?_⟩
    · simp only [get_following_file]
      rw [pyIndex_ok hf, except_bind_ok, if_pos hlast, dayOf_add_day]
      exact pyGet_zero _ hlen1
    · have hmem1 := List.get_mem _ 0 hlen1
      have hd1 := hday _ _ hmem1
      exact le_of_lt (date_lt_of_day_lt rfl hd1 (by omega))
  · have hlt : (cat.get_files (dayOf (cat.name_to_date f))).indexOf f + 1 <
        (cat.get_files (dayOf (cat.name_to_date f))).length := by omega
    refine ⟨(cat.get_files (dayOf (cat.name_to_date f))).get
      ⟨(cat.get_files (dayOf (cat.name_to_date f))).indexOf f + 1, hlt⟩, ?_, ?_⟩
    · simp only [get_following_file]
      rw [pyIndex_ok hf, except_bind_ok, if_neg hlast]
      exact pyGet_int_add_one _ _ hlt
    · have hpw := List.pairwise_iff_get.1 (hsort (dayOf (cat.name_to_date f)))
        ⟨_, hidx⟩ ⟨_, hlt⟩ (Fin.mk_lt_mk.2 (Nat.lt_succ_self _))
      rw [List.indexOf_get hidx] at hpw
      exact le_of_lt hpw

theorem pyGet_singleton_neg_one {α : Type} (a : α) : pyGet [a] (-1) = .ok a := rfl

/-- Catalog with exactly one file per day, at midnight of that day. -/
def unitCat : Catalog Int := ⟨fun d => [86400 * d], fun f => f⟩

/-- C7 witness: in the one-file-per-day catalog, both round trips at the
day-0 file return the file itself. -/
theorem c7_preceeding_following_inverse_witness :
    ((get_following_file unitCat 0) >>= fun g => get_preceeding_file unitCat g) =
      .ok 0 ∧
    ((get_preceeding_file unitCat 0) >>= fun g => get_following_file unitCat g) =
      .ok 0 :=
  c7_preceeding_following_inverse unitCat 0 (by decide) (by decide) (by decide)
    (by decide) (by decide) (by decide) (by decide) (by decide)

/-- C2 amended: for `t0 < t1` over a catalog with non-empty,
day-consistent, strictly chronologically sorted listings,
`get_files_in_range(t0, t1, False, False)` succeeds with a non-empty,
chronologically ordered file list.  (The bracketing clause of the original
claim — last start time ≥ `t1`, following file appended whenever the last
SELECTED file does not exceed `t1` — is refuted by `c2_counterexample`:
the code keys the append on the last file of the last scanned day's
listing instead.) -/
theorem c2_files_in_range_ordered {F : Type} [DecidableEq F] (cat : Catalog F)
    (t0 t1 : Int) (ht : t0 < t1)
    (hne : ∀ d, cat.get_files d ≠ [])
    (hday : ∀ d, ∀ f ∈ cat.get_files d, dayOf (cat.name_to_date f) = d)
    (hsort : ∀ d, (cat.get_files d).Pairwise
      (fun a b => cat.name_to_date a < cat.name_to_date b)) :
    ∃ l, get_files_in_range cat t0 t1 false false = .ok l ∧ l ≠ [] ∧
      l.Chain' (fun a b => cat.name_to_date a ≤ cat.name_to_date b) := by
  have hN : numDays t0 t1 ≠ 0 := numDays_pos t0 t1 ht
  have hp1 : pos1Last cat t0 t1 = some ((cat.get_files (dayOf (t0 + 86400 *
      ((numDays t0 t1 : Int) - 1)))).map
      (fun f => decide (t1 < cat.name_to_date f))) := by
    simp [pos1Last, hN]
  have hPne : (cat.get_files (dayOf (t0 + 86400 * ((numDays t0 t1 : Int) - 1)))).map
      (fun f => decide (t1 < cat.name_to_date f)) ≠ [] := by
    simpa using hne _
  obtain ⟨b, hb⟩ : ∃ b, pyGet ((cat.get_files (dayOf (t0 + 86400 *
      ((numDays t0 t1 : Int) - 1)))).map
      (fun f => decide (t1 < cat.name_to_date f))) (-1) = .ok b :=
    ⟨_, pyGet_neg_one _ hPne⟩
  by_cases hl : loopFiles cat t0 t1 = []
  · -- fallback case: the scan selected nothing
    have hfbne : fallbackPool cat t0 t1 ≠ [] :=
      List.append_ne_nil_of_left_ne_nil (hne _) _
    have hfbe : (fallbackPool cat t0 t1).isEmpty = false := by
      simpa [List.isEmpty_iff] using hfbne
    have hind : argminIdx ((fallbackPool cat t0 t1).map
        (fun f => (cat.name_to_date f - t0).natAbs)) <
        (fallbackPool cat t0 t1).length := by
      have h2 := argminIdx_lt_length ((fallbackPool cat t0 t1).map
        (fun f => (cat.name_to_date f - t0).natAbs)) (by simpa using hfbne)
      simpa using h2
    have hx : pyGet (fallbackPool cat t0 t1) ((argminIdx ((fallbackPool cat t0 t1).map
        (fun f => (cat.name_to_date f - t0).natAbs)) : Nat) : Int) =
        .ok ((fallbackPool cat t0 t1).get ⟨_, hind⟩) := pyGet_nat _ _ hind
    have hxmem := fallbackPool_mem_own_day cat t0 t1 hday _ (List.get_mem _ _ hind)
    cases b with
    | true =>
      refine ⟨[(fallbackPool cat t0 t1).get ⟨_, hind⟩], ?_, by simp,
        List.chain'_singleton _⟩
      unfold get_files_in_range
      rw [hl]
      simp only [List.length_nil, Nat.zero_lt_one, if_pos, hfbe, Bool.false_eq_true,
        if_false, hx, except_bind_ok, except_pure_eq, Bool.false_and,
        List.isEmpty_cons, Bool.not_false, Bool.if_true_left, hp1, hb, if_true]
    | false =>
      obtain ⟨y, hy, hyle⟩ := get_following_file_ok cat hne hday hsort _ hxmem
      refine ⟨[(fallbackPool cat t0 t1).get ⟨_, hind⟩, y], ?_, by simp, ?_⟩
      · unfold get_files_in_range
        rw [hl]
        simp only [List.length_nil, Nat.zero_lt_one, if_pos, hfbe, Bool.false_eq_true,
          if_false, hx, except_bind_ok, except_pure_eq, Bool.false_and,
          List.isEmpty_cons, Bool.not_false, Bool.if_true_left, hp1, hb,
          pyGet_singleton_neg_one, hy]
        rfl
      · exact List.chain'_pair.2 hyle
  · -- loop case: the scan selected at least one file
    have hlpos : ¬ ((loopFiles cat t0 t1).length < 1) := by
      have h2 := List.length_pos.mpr hl
      omega
    have hlem : (loopFiles cat t0 t1).isEmpty = false := by
      simpa [List.isEmpty_iff] using hl
    have hchain := loopFiles_chain cat t0 t1 hday hsort
    have hlmem := loopFiles_mem_own_day cat t0 t1 hday _ (List.getLast_mem hl)
    have hplg : pyGet (loopFiles cat t0 t1) (-1) =
        .ok ((loopFiles cat t0 t1).getLast hl) := pyGet_neg_one _ hl
    cases b with
    | true =>
      refine ⟨loopFiles cat t0 t1, ?_, hl, hchain⟩
      unfold get_files_in_range
      simp only [if_neg hlpos, except_bind_ok, except_pure_eq, Bool.false_and,
        Bool.false_eq_true, if_false, hlem, Bool.not_false, Bool.if_true_left,
        hp1, hb, if_true]
    | false =>
      obtain ⟨y, hy, hyle⟩ := get_following_file_ok cat hne hday hsort _ hlmem
      refine ⟨loopFiles cat t0 t1 ++ [y], ?_,
        List.append_ne_nil_of_left_ne_nil hl _, ?_⟩
      · unfold get_files_in_range
        simp only [if_neg hlpos, except_bind_ok, except_pure_eq, Bool.false_and,
          Bool.false_eq_true, if_false, hlem, Bool.not_false, Bool.if_true_left,
          hp1, hb, hplg, hy]
        simp [List.isEmpty_eq_false, List.append_ne_nil_of_left_ne_nil hl]
      · refine List.Chain'.append hchain (List.chain'_singleton y) ?_
        intro a ha z hz
        have ha2 : a = (loopFiles cat t0 t1).getLast hl := by
          rw [List.getLast?_eq_getLast _ hl] at ha
          have h3 : (loopFiles cat t0 t1).getLast hl = a := by simpa using ha
          exact h3.symm
        have hz2 : z = y := by
          have h4 : y = z := by simpa using hz
          exact h4.symm
        rw [ha2, hz2]
        exact hyle

/-- C2 amended witness: the one-file-per-day catalog with
`t0 = 10 < t1 = 20` — the call succeeds with a non-empty, chronologically
ordered list. -/
theorem c2_files_in_range_ordered_witness :
    ∃ l, get_files_in_range unitCat 10 20 false false = .ok l ∧ l ≠ [] ∧
      l.Chain' (fun a b => unitCat.name_to_date a ≤ unitCat.name_to_date b) :=
  c2_files_in_range_ordered unitCat 10 20 (by norm_num)
    (fun d => by simp [unitCat])
    (fun d f hf => by
      simp only [unitCat, List.mem_singleton] at hf
      simp [unitCat, hf, dayOf_mul_self])
    (fun d => by simp [unitCat])

end CloudColocations
